import Mathlib

/-!
Verification of the key-material core of dkeyczar (`keydata.go`).

Bytes are modelled as `List Nat` (each entry a byte value).  The foreign
cryptographic primitives from the Go standard library (SHA-1, HMAC-SHA1,
the AES block cipher, RSA-OAEP) are not repository code; they enter the
development as abstract function parameters collected in `CryptoPrims`,
with the properties the repository relies on (digest lengths, the block
cipher being a permutation) stated as explicit hypotheses of the theorems.
Everything written by the repository itself (envelope layout, padding,
CBC chaining, MAC-then-decrypt control flow, key identifiers, the
version loaders) is embedded directly from `keydata.go`; helpers that the
repository defines in files outside `src/` are modelled from the spec and
say so in their doc comments.
-/

/-- Error values surfaced by the package (`errors.go` of the repository;
the names mirror the spec's error surface).  `ReaderError` stands for an
opaque error propagated unchanged from the external key-record source,
and `CipherReject` for an error returned by `aes.NewCipher` on a key of
invalid length. -/
inductive KzError where
  | ShortCiphertext
  | InvalidSignature
  | InvalidKeySize
  | Base64Decoding
  | ReaderError
  | CipherReject
  deriving DecidableEq, Repr

/-- Foreign cryptographic primitives (Go standard library, not repository
code), abstracted as functions on byte lists. -/
structure CryptoPrims where
  sha1 : List Nat → List Nat
  hmacSha1 : List Nat → List Nat → List Nat
  aesEncBlock : List Nat → List Nat → List Nat
  aesDecBlock : List Nat → List Nat → List Nat

/-- Big-endian 4-byte encoding of a `uint32` value, as produced by
`binary.Write(h, binary.BigEndian, uint32 n)`; the value is reduced
mod 2^32 as the Go conversion does. -/
def toBE32 (n : Nat) : List Nat :=
  [n % 2 ^ 32 / 2 ^ 24, n % 2 ^ 24 / 2 ^ 16, n % 2 ^ 16 / 2 ^ 8, n % 2 ^ 8]

/-- Minimal big-endian bytes of a natural number, as `big.Int.Bytes()`
returns them (the empty list for zero).  Written with explicit fuel so
that it evaluates inside the kernel. -/
def toBytesBEAux : Nat → Nat → List Nat
  | 0, _ => []
  | fuel + 1, n => if n = 0 then [] else toBytesBEAux fuel (n / 256) ++ [n % 256]

/-- Entry point for `toBytesBEAux`: `n` itself is always enough fuel. -/
def toBytesBE (n : Nat) : List Nat := toBytesBEAux n n

/-- Value of a big-endian byte string, as `big.NewInt(0).SetBytes(b)`. -/
def fromBytesBE (b : List Nat) : Nat := b.foldl (fun acc x => acc * 256 + x) 0

/-- Go `subtle.ConstantTimeCompare` returns 1 exactly when the two byte
slices have equal length and equal contents; functionally this is list
equality (the constant-time execution property is not representable in a
functional embedding). -/
def constantTimeCompare (x y : List Nat) : Bool := x == y

/-- HMAC key (`hmacKey` in `keydata.go`): raw key bytes. -/
structure hmacKey where
  key : List Nat
  deriving DecidableEq, Repr

/-- AES key (`aesKey` in `keydata.go`): AES key bytes plus the bundled
HMAC key. -/
structure aesKey where
  key : List Nat
  hmacKey : hmacKey
  deriving DecidableEq, Repr

/-- `hmacKey.Sign`: raw HMAC-SHA1 over the message, no header. -/
def hmacSign (P : CryptoPrims) (hk : hmacKey) (msg : List Nat) : List Nat :=
  P.hmacSha1 hk.key msg

/-- `hmacKey.Verify`: recompute the tag and compare; the Go method always
returns a `nil` error, modelled as the second component being `none`. -/
def hmacVerify (P : CryptoPrims) (hk : hmacKey) (msg sig : List Nat) :
    Bool × Option KzError :=
  (constantTimeCompare (P.hmacSha1 hk.key msg) sig, none)

/-- `hmacKey.KeyID`: first 4 bytes of SHA-1 over the key bytes. -/
def hmacKeyID (P : CryptoPrims) (hk : hmacKey) : List Nat :=
  (P.sha1 hk.key).take 4

/-- `aesKey.KeyID`: first 4 bytes of SHA-1 over the 4-byte big-endian
length of the AES key, the AES key bytes, and the MAC key bytes. -/
def aesKeyID (P : CryptoPrims) (ak : aesKey) : List Nat :=
  (P.sha1 (toBE32 ak.key.length ++ ak.key ++ ak.hmacKey.key)).take 4

/-- Modelled from the spec: the envelope header length (`kzHeaderLength`)
is defined outside `src/`; the spec fixes the header as a format marker
followed by the 4-byte KeyID, a fixed-length constant shared by all
envelopes (5 bytes). -/
def kzHeaderLength : Nat := 5

/-- Modelled from the spec: the format-version marker byte; its value is
an external contract (spec §9), only the header length matters here. -/
def kzVersionByte : Nat := 0

/-- Modelled from the spec: `makeHeader` (defined outside `src/`) builds
the fixed-length header, a format marker followed by the key's 4-byte
KeyID. -/
def makeHeader (keyid : List Nat) : List Nat := kzVersionByte :: keyid

/-- Modelled from the spec: `pkcs5pad` (defined outside `src/`) applies
PKCS#5/7 padding to the block size: append `n` bytes of value `n` where
`n = blockSize - len % blockSize`. -/
def pkcs5pad (data : List Nat) (blockSize : Nat) : List Nat :=
  data ++ List.replicate (blockSize - data.length % blockSize)
    (blockSize - data.length % blockSize)

/-- Modelled from the spec: `pkcs5unpad` (defined outside `src/`).  Its
call site in `aesKey.Decrypt` shows it returns bytes with no error, and
the spec (§9) records that the source's padding-removal step has no
explicit handling for malformed padding; so it is the standard
unvalidated removal: read the last byte as the pad count and drop that
many bytes.  (Go indexes `data[len(data)-1]`, a fault on empty input;
no theorem below evaluates it there.) -/
def pkcs5unpad (data : List Nat) : List Nat :=
  data.take (data.length - data.getLastD 0)

/-- Byte-wise XOR of two equal-length byte strings (CBC chaining step). -/
def xorBytes (a b : List Nat) : List Nat := List.zipWith HXor.hXor a b

/-- Splits a byte string into 16-byte blocks (the AES block size), as Go's
CBC mode consumes it.  Fueled so that it evaluates inside the kernel;
`fuel ≥ length` always suffices since each step consumes at least one
byte. -/
def toBlocks16Aux : Nat → List Nat → List (List Nat)
  | 0, _ => []
  | _ + 1, [] => []
  | fuel + 1, x :: xs => (x :: xs).take 16 :: toBlocks16Aux fuel ((x :: xs).drop 16)

/-- Entry point for `toBlocks16Aux` with fuel the length of the input. -/
def toBlocks16 (b : List Nat) : List (List Nat) := toBlocks16Aux b.length b

/-- CBC encryption over a block list: each ciphertext block is the block
encryption of the plaintext block XORed with the previous ciphertext
block (initially the IV), as `cipher.NewCBCEncrypter` computes it. -/
def cbcEnc (enc : List Nat → List Nat) : List Nat → List (List Nat) → List (List Nat)
  | _, [] => []
  | prev, p :: ps =>
    let c := enc (xorBytes p prev)
    c :: cbcEnc enc c ps

/-- CBC decryption over a block list: each plaintext block is the block
decryption of the ciphertext block XORed with the previous ciphertext
block (initially the IV), as `cipher.NewCBCDecrypter` computes it. -/
def cbcDec (dec : List Nat → List Nat) : List Nat → List (List Nat) → List (List Nat)
  | _, [] => []
  | prev, c :: cs => xorBytes (dec c) prev :: cbcDec dec c cs

/-- Key lengths accepted by `aes.NewCipher` (16, 24 or 32 bytes);
any other length makes it return a `KeySizeError`. -/
def validAesKeyLength (n : Nat) : Bool := n == 16 || n == 24 || n == 32

/-- `aesKey.Encrypt` from `keydata.go`: pad the plaintext, CBC-encrypt
under the given IV, build `header ++ IV ++ ciphertext`, and append the
HMAC tag computed over that whole message.  The IV, drawn from the
secure random source in Go, is an explicit argument here. -/
def aesEncrypt (P : CryptoPrims) (ak : aesKey) (iv data : List Nat) :
    Except KzError (List Nat) :=
  let padded := pkcs5pad data 16
  if ¬ validAesKeyLength ak.key.length then .error .CipherReject
  else
    let cipherBytes := (cbcEnc (P.aesEncBlock ak.key) iv (toBlocks16 padded)).flatten
    let msg := makeHeader (aesKeyID P ak) ++ iv ++ cipherBytes
    let sig := hmacSign P ak.hmacKey msg
    .ok (msg ++ sig)

/-- `aesKey.Decrypt` from `keydata.go`: reject short input; split off the
trailing 20-byte tag and verify it over everything preceding it; on
mismatch fail with `InvalidSignature`; otherwise extract the IV after the
header, CBC-decrypt the remainder and remove the padding. -/
def aesDecrypt (P : CryptoPrims) (ak : aesKey) (data : List Nat) :
    Except KzError (List Nat) :=
  if data.length < kzHeaderLength + 16 + 20 then .error .ShortCiphertext
  else
    let msg := data.take (data.length - 20)
    let sig := data.drop (data.length - 20)
    let v := hmacVerify P ak.hmacKey msg sig
    if ¬ v.1 ∨ v.2.isSome then .error (v.2.getD .InvalidSignature)
    else if ¬ validAesKeyLength ak.key.length then .error .CipherReject
    else
      let iv := (data.drop kzHeaderLength).take 16
      let ct := (data.drop (kzHeaderLength + 16)).take
        (data.length - 20 - (kzHeaderLength + 16))
      let plainBytes := (cbcDec (P.aesDecBlock ak.key) iv (toBlocks16 ct)).flatten
      .ok (pkcs5unpad plainBytes)

/-- DSA public key (`dsaPublicKey` in `keydata.go`): the parameters P, Q,
G and the public value Y, each a `big.Int`, modelled as `Nat`. -/
structure dsaPublicKey where
  P : Nat
  Q : Nat
  G : Nat
  Y : Nat
  deriving DecidableEq, Repr

/-- Fields of Go's `dsa.PrivateKey`: the embedded public parameters plus
the secret X. -/
structure dsaPrivateFields where
  P : Nat
  Q : Nat
  G : Nat
  Y : Nat
  X : Nat
  deriving DecidableEq, Repr

/-- DSA private key (`dsaKey` in `keydata.go`): Go's `dsa.PrivateKey`
plus a separately stored copy of the public half. -/
structure dsaKey where
  key : dsaPrivateFields
  publicKey : dsaPublicKey
  deriving DecidableEq, Repr

/-- `dsaPublicKey.KeyID`: first 4 bytes of SHA-1 over P, Q, G, Y in that
order, each as its minimal big-endian bytes preceded by a 4-byte
big-endian length. -/
def dsaPublicKeyID (P : CryptoPrims) (dk : dsaPublicKey) : List Nat :=
  (P.sha1 (([dk.P, dk.Q, dk.G, dk.Y].map
    (fun n => toBE32 (toBytesBE n).length ++ toBytesBE n)).flatten)).take 4

/-- `dsaKey.KeyID`: delegates to the embedded public key. -/
def dsaKeyID (P : CryptoPrims) (dk : dsaKey) : List Nat :=
  dsaPublicKeyID P dk.publicKey

/-- RSA public key (`rsaPublicKey` in `keydata.go`): modulus N and public
exponent E. -/
structure rsaPublicKey where
  N : Nat
  E : Nat
  deriving DecidableEq, Repr

/-- CRT precomputed values of Go's `rsa.PrivateKey`. -/
structure rsaPrecomputed where
  Dp : Nat
  Dq : Nat
  Qinv : Nat
  deriving DecidableEq, Repr

/-- Fields of Go's `rsa.PrivateKey`: embedded public key, private
exponent D, the two primes, and the CRT precomputation. -/
structure rsaPrivateFields where
  PublicKey : rsaPublicKey
  D : Nat
  Primes : List Nat
  Precomputed : rsaPrecomputed
  deriving DecidableEq, Repr

/-- RSA private key (`rsaKey` in `keydata.go`): Go's `rsa.PrivateKey`
plus a separately stored copy of the public half. -/
structure rsaKey where
  key : rsaPrivateFields
  publicKey : rsaPublicKey
  deriving DecidableEq, Repr

/-- `rsaPublicKey.KeyID`: first 4 bytes of SHA-1 over the modulus and the
public exponent, each as minimal big-endian bytes preceded by a 4-byte
big-endian length. -/
def rsaPublicKeyID (P : CryptoPrims) (rk : rsaPublicKey) : List Nat :=
  (P.sha1 ((toBE32 (toBytesBE rk.N).length ++ toBytesBE rk.N) ++
    (toBE32 (toBytesBE rk.E).length ++ toBytesBE rk.E))).take 4

/-- `rsaKey.KeyID`: delegates to the embedded public key. -/
def rsaKeyID (P : CryptoPrims) (rk : rsaKey) : List Nat :=
  rsaPublicKeyID P rk.publicKey

/-- Go slice expression `b[i:]`: defined (as the suffix from `i`) only
when `i ≤ len(b)`; otherwise the program panics, modelled as `none`. -/
def goSliceFrom (b : List Nat) (i : Nat) : Option (List Nat) :=
  if i ≤ b.length then some (b.drop i) else none

/-- `rsaKey.Decrypt` from `keydata.go`: slice off the first
`kzHeaderLength` bytes of the input unconditionally, then OAEP-decrypt
the remainder, propagating its error.  `oaepDec` abstracts
`rsa.DecryptOAEP(sha1.New(), rand.Reader, &rk.key, ·, nil)`; the outer
`Option` is `none` exactly when the Go slice expression panics. -/
def rsaDecrypt (oaepDec : rsaPrivateFields → List Nat → Except KzError (List Nat))
    (rk : rsaKey) (msg : List Nat) : Option (Except KzError (List Nat)) :=
  (goSliceFrom msg kzHeaderLength).map (fun rest => oaepDec rk.key rest)

/-- Serialized HMAC key record (`hmacKeyJSON` in `keydata.go`). -/
structure hmacKeyJSON where
  HmacKeyString : String
  Size : Nat
  deriving Repr

/-- Serialized AES key record (`aesKeyJSON` in `keydata.go`); the cipher
mode field plays no role in loading. -/
structure aesKeyJSON where
  AesKeyString : String
  Size : Nat
  HmacKey : hmacKeyJSON
  Mode : String
  deriving Repr

/-- Serialized DSA public key record (`dsaPublicKeyJSON`). -/
structure dsaPublicKeyJSON where
  Q : String
  P : String
  Y : String
  G : String
  Size : Nat
  deriving Repr

/-- Serialized DSA private key record (`dsaKeyJSON`). -/
structure dsaKeyJSON where
  PublicKey : dsaPublicKeyJSON
  Size : Nat
  X : String
  deriving Repr

/-- Serialized RSA public key record (`rsaPublicKeyJSON`). -/
structure rsaPublicKeyJSON where
  Modulus : String
  PublicExponent : String
  Size : Nat
  deriving Repr

/-- Serialized RSA private key record (`rsaKeyJSON`). -/
structure rsaKeyJSON where
  CrtCoefficient : String
  PrimeExponentP : String
  PrimeExponentQ : String
  PrimeP : String
  PrimeQ : String
  PrivateExponent : String
  PublicKey : rsaPublicKeyJSON
  Size : Nat
  deriving Repr

/-- Environment for loading: the web-safe base64 decoder and the
per-family acceptable-size predicates.  `decodeWeb64` abstracts
`decodeWeb64String` and the `accept*` fields abstract
`keyType.isAcceptableSize`, both defined in repository files outside
`src/`; `none` and `false` are their respective failure outcomes. -/
structure LoadEnv where
  decodeWeb64 : String → Option (List Nat)
  acceptAes : Nat → Bool
  acceptHmac : Nat → Bool
  acceptDsaPub : Nat → Bool
  acceptDsaPriv : Nat → Bool
  acceptRsaPub : Nat → Bool
  acceptRsaPriv : Nat → Bool

/-- Per-version body of `newAesKeys`: the reader error is mapped to
`Base64Decoding` (as at line 129 of `keydata.go`), then the two size
gates and base64 decodings run in source order. -/
def parseAesVersion (E : LoadEnv) (getKey : Int → Except KzError aesKeyJSON)
    (v : Int) : Except KzError aesKey :=
  match getKey v with
  | .error _ => .error .Base64Decoding
  | .ok j =>
    if ¬ E.acceptAes j.Size then .error .InvalidKeySize
    else match E.decodeWeb64 j.AesKeyString with
    | none => .error .Base64Decoding
    | some kb =>
      if ¬ E.acceptHmac j.HmacKey.Size then .error .InvalidKeySize
      else match E.decodeWeb64 j.HmacKey.HmacKeyString with
      | none => .error .Base64Decoding
      | some hb => .ok { key := kb, hmacKey := { key := hb } }

/-- Per-version body of `newHmacKeys`: the reader error is propagated
unchanged, then the size gate and base64 decoding run in source order. -/
def parseHmacVersion (E : LoadEnv) (getKey : Int → Except KzError hmacKeyJSON)
    (v : Int) : Except KzError hmacKey :=
  match getKey v with
  | .error e => .error e
  | .ok j =>
    if ¬ E.acceptHmac j.Size then .error .InvalidKeySize
    else match E.decodeWeb64 j.HmacKeyString with
    | none => .error .Base64Decoding
    | some kb => .ok { key := kb }

/-- Per-version body of `newDsaPublicKeys`: reader error propagated, size
gate, then Y, G, P, Q decoded in source order. -/
def parseDsaPublicVersion (E : LoadEnv)
    (getKey : Int → Except KzError dsaPublicKeyJSON) (v : Int) :
    Except KzError dsaPublicKey :=
  match getKey v with
  | .error e => .error e
  | .ok j =>
    if ¬ E.acceptDsaPub j.Size then .error .InvalidKeySize
    else match E.decodeWeb64 j.Y with
    | none => .error .Base64Decoding
    | some yb => match E.decodeWeb64 j.G with
      | none => .error .Base64Decoding
      | some gb => match E.decodeWeb64 j.P with
        | none => .error .Base64Decoding
        | some pb => match E.decodeWeb64 j.Q with
          | none => .error .Base64Decoding
          | some qb => .ok { P := fromBytesBE pb, Q := fromBytesBE qb,
                             G := fromBytesBE gb, Y := fromBytesBE yb }

/-- Per-version body of `newDsaKeys`: reader error propagated, both size
gates, then X, Y, G, P, Q decoded in source order, with the public
fields copied onto the embedded public key as the source does. -/
def parseDsaVersion (E : LoadEnv) (getKey : Int → Except KzError dsaKeyJSON)
    (v : Int) : Except KzError dsaKey :=
  match getKey v with
  | .error e => .error e
  | .ok j =>
    if ¬ E.acceptDsaPriv j.Size ∨ ¬ E.acceptDsaPub j.PublicKey.Size then
      .error .InvalidKeySize
    else match E.decodeWeb64 j.X with
    | none => .error .Base64Decoding
    | some xb => match E.decodeWeb64 j.PublicKey.Y with
      | none => .error .Base64Decoding
      | some yb => match E.decodeWeb64 j.PublicKey.G with
        | none => .error .Base64Decoding
        | some gb => match E.decodeWeb64 j.PublicKey.P with
          | none => .error .Base64Decoding
          | some pb => match E.decodeWeb64 j.PublicKey.Q with
            | none => .error .Base64Decoding
            | some qb =>
              .ok { key := { P := fromBytesBE pb, Q := fromBytesBE qb,
                             G := fromBytesBE gb, Y := fromBytesBE yb,
                             X := fromBytesBE xb },
                    publicKey := { P := fromBytesBE pb, Q := fromBytesBE qb,
                                   G := fromBytesBE gb, Y := fromBytesBE yb } }

/-- Per-version body of `newRsaPublicKeys`: reader error propagated, size
gate, then modulus and public exponent decoded in source order. -/
def parseRsaPublicVersion (E : LoadEnv)
    (getKey : Int → Except KzError rsaPublicKeyJSON) (v : Int) :
    Except KzError rsaPublicKey :=
  match getKey v with
  | .error e => .error e
  | .ok j =>
    if ¬ E.acceptRsaPub j.Size then .error .InvalidKeySize
    else match E.decodeWeb64 j.Modulus with
    | none => .error .Base64Decoding
    | some nb => match E.decodeWeb64 j.PublicExponent with
      | none => .error .Base64Decoding
      | some eb => .ok { N := fromBytesBE nb, E := fromBytesBE eb }

/-- Per-version body of `newRsaKeys`: reader error propagated, both size
gates, then the six private fields and the two public fields decoded in
source order, with the public fields copied onto the embedded public
key as the source does. -/
def parseRsaVersion (E : LoadEnv) (getKey : Int → Except KzError rsaKeyJSON)
    (v : Int) : Except KzError rsaKey :=
  match getKey v with
  | .error e => .error e
  | .ok j =>
    if ¬ E.acceptRsaPriv j.Size ∨ ¬ E.acceptRsaPub j.PublicKey.Size then
      .error .InvalidKeySize
    else match E.decodeWeb64 j.CrtCoefficient with
    | none => .error .Base64Decoding
    | some qinv => match E.decodeWeb64 j.PrimeExponentP with
      | none => .error .Base64Decoding
      | some dp => match E.decodeWeb64 j.PrimeExponentQ with
        | none => .error .Base64Decoding
        | some dq => match E.decodeWeb64 j.PrimeP with
          | none => .error .Base64Decoding
          | some pb => match E.decodeWeb64 j.PrimeQ with
            | none => .error .Base64Decoding
            | some qb => match E.decodeWeb64 j.PrivateExponent with
              | none => .error .Base64Decoding
              | some db => match E.decodeWeb64 j.PublicKey.Modulus with
                | none => .error .Base64Decoding
                | some nb => match E.decodeWeb64 j.PublicKey.PublicExponent with
                  | none => .error .Base64Decoding
                  | some eb =>
                    .ok { key := { PublicKey := { N := fromBytesBE nb,
                                                  E := fromBytesBE eb },
                                   D := fromBytesBE db,
                                   Primes := [fromBytesBE pb, fromBytesBE qb],
                                   Precomputed := { Dp := fromBytesBE dp,
                                                    Dq := fromBytesBE dq,
                                                    Qinv := fromBytesBE qinv } },
                          publicKey := { N := fromBytesBE nb, E := fromBytesBE eb } }

/-- Shared loop of the six `new*Keys` loaders: process the version list
in order, stopping at the first per-version failure; on failure the Go
loaders return `(nil, err)`, so the error case carries no map at all.
The version map is modelled as an association list in insertion order. -/
def loadKeys (step : Int → Except KzError α) : List Int → Except KzError (List (Int × α))
  | [] => .ok []
  | v :: vs =>
    match step v with
    | .error e => .error e
    | .ok k =>
      match loadKeys step vs with
      | .error e => .error e
      | .ok rest => .ok ((v, k) :: rest)

/-- `newAesKeys` from `keydata.go`. -/
def newAesKeys (E : LoadEnv) (getKey : Int → Except KzError aesKeyJSON)
    (versions : List Int) : Except KzError (List (Int × aesKey)) :=
  loadKeys (parseAesVersion E getKey) versions

/-- `newHmacKeys` from `keydata.go`. -/
def newHmacKeys (E : LoadEnv) (getKey : Int → Except KzError hmacKeyJSON)
    (versions : List Int) : Except KzError (List (Int × hmacKey)) :=
  loadKeys (parseHmacVersion E getKey) versions

/-- `newDsaPublicKeys` from `keydata.go`. -/
def newDsaPublicKeys (E : LoadEnv) (getKey : Int → Except KzError dsaPublicKeyJSON)
    (versions : List Int) : Except KzError (List (Int × dsaPublicKey)) :=
  loadKeys (parseDsaPublicVersion E getKey) versions

/-- `newDsaKeys` from `keydata.go`. -/
def newDsaKeys (E : LoadEnv) (getKey : Int → Except KzError dsaKeyJSON)
    (versions : List Int) : Except KzError (List (Int × dsaKey)) :=
  loadKeys (parseDsaVersion E getKey) versions

/-- `newRsaPublicKeys` from `keydata.go`. -/
def newRsaPublicKeys (E : LoadEnv) (getKey : Int → Except KzError rsaPublicKeyJSON)
    (versions : List Int) : Except KzError (List (Int × rsaPublicKey)) :=
  loadKeys (parseRsaPublicVersion E getKey) versions

/-- `newRsaKeys` from `keydata.go`. -/
def newRsaKeys (E : LoadEnv) (getKey : Int → Except KzError rsaKeyJSON)
    (versions : List Int) : Except KzError (List (Int × rsaKey)) :=
  loadKeys (parseRsaVersion E getKey) versions

/-- The symmetric KeyID as the spec words it: first 4 bytes of SHA-1 of
the 4-byte big-endian length of the AES key, then the AES key bytes,
then the MAC key bytes.  Stated over the raw byte strings to compare
against the source's `aesKey.KeyID`. -/
def aesKeyIDFromSpec (P : CryptoPrims) (aesKeyBytes macKeyBytes : List Nat) : List Nat :=
  (P.sha1 (toBE32 aesKeyBytes.length ++ aesKeyBytes ++ macKeyBytes)).take 4

/-- Concrete primitives for evaluating the embedding on closed inputs:
constant digests of the right length and the identity block cipher.
They satisfy every hypothesis the theorems place on the primitives. -/
def testPrims : CryptoPrims where
  sha1 := fun _ => List.replicate 20 0
  hmacSha1 := fun _ _ => List.replicate 20 0
  aesEncBlock := fun _ b => b
  aesDecBlock := fun _ b => b

/-- Concrete 128-bit AES key with an empty MAC key, for closed
evaluations. -/
def testAesKey : aesKey := { key := List.replicate 16 0, hmacKey := { key := [] } }

/-- Concrete RSA private key (all fields zero), for closed evaluations. -/
def testRsaKey : rsaKey :=
  { key := { PublicKey := { N := 0, E := 0 }, D := 0, Primes := [],
             Precomputed := { Dp := 0, Dq := 0, Qinv := 0 } },
    publicKey := { N := 0, E := 0 } }

/-- Ciphertext whose MAC tag is valid under `testPrims` but whose
CBC-decrypted block `0^15 ∥ 03` carries malformed PKCS#5 padding (a pad
count of 3 whose preceding bytes are not 3): header, zero IV, one
ciphertext block, constant tag. -/
def malformedPadInput : List Nat :=
  List.replicate 5 0 ++ List.replicate 16 0 ++ (List.replicate 15 0 ++ [3]) ++
    List.replicate 20 0

/-- Load environment that rejects every declared size, for closed
evaluations of the loaders' size gate. -/
def rejectAllEnv : LoadEnv where
  decodeWeb64 := fun _ => some []
  acceptAes := fun _ => false
  acceptHmac := fun _ => false
  acceptDsaPub := fun _ => false
  acceptDsaPriv := fun _ => false
  acceptRsaPub := fun _ => false
  acceptRsaPriv := fun _ => false

/-- Concrete serialized records (contents irrelevant: `rejectAllEnv`
fails their size gates), for closed evaluations of the loaders. -/
def testHmacJSON : hmacKeyJSON := { HmacKeyString := "", Size := 160 }

/-- Concrete serialized AES record for closed evaluations. -/
def testAesJSON : aesKeyJSON :=
  { AesKeyString := "", Size := 128, HmacKey := testHmacJSON, Mode := "CBC" }

/-- Concrete serialized DSA public record for closed evaluations. -/
def testDsaPublicJSON : dsaPublicKeyJSON :=
  { Q := "", P := "", Y := "", G := "", Size := 1024 }

/-- Concrete serialized DSA private record for closed evaluations. -/
def testDsaJSON : dsaKeyJSON :=
  { PublicKey := testDsaPublicJSON, Size := 1024, X := "" }

/-- Concrete serialized RSA public record for closed evaluations. -/
def testRsaPublicJSON : rsaPublicKeyJSON :=
  { Modulus := "", PublicExponent := "", Size := 2048 }

/-- Concrete serialized RSA private record for closed evaluations. -/
def testRsaJSON : rsaKeyJSON :=
  { CrtCoefficient := "", PrimeExponentP := "", PrimeExponentQ := "",
    PrimeP := "", PrimeQ := "", PrivateExponent := "",
    PublicKey := testRsaPublicJSON, Size := 2048 }

/-- Auxiliary: if some version in the list fails its per-version step,
the whole load returns an error (and hence no map at all). -/
theorem loadKeys_error_of_mem {α : Type} (step : Int → Except KzError α)
    (vs : List Int) (h : ∃ v ∈ vs, ∃ e, step v = .error e) :
    ∃ e, loadKeys step vs = .error e := by
  induction vs with
  | nil => obtain ⟨v, hv, _⟩ := h; cases hv
  | cons w ws ih =>
    obtain ⟨v, hv, e, he⟩ := h
    cases hstep : step w with
    | error e2 => exact ⟨e2, by simp [loadKeys, hstep]⟩
    | ok k =>
      rcases List.mem_cons.mp hv with rfl | hmem
      · simp [hstep] at he
      · obtain ⟨e3, he3⟩ := ih ⟨v, hmem, e, he⟩
        exact ⟨e3, by simp [loadKeys, hstep, he3]⟩

/-- C4: any input shorter than `kzHeaderLength + blockSize + tagLength`
makes symmetric `Decrypt` return the short-ciphertext error (the model
is a total function, so no fault can occur). -/
theorem aesDecrypt_short (P : CryptoPrims) (ak : aesKey) (data : List Nat)
    (h : data.length < kzHeaderLength + 16 + 20) :
    aesDecrypt P ak data = .error .ShortCiphertext := by
  simp [aesDecrypt, h]

/-- Witness for C4 at the empty input. -/
theorem aesDecrypt_short_witness :
    aesDecrypt testPrims testAesKey [] = .error .ShortCiphertext :=
  aesDecrypt_short testPrims testAesKey [] (by decide)

/-- C6: for every DSA private key and every RSA private key, `KeyID`
equals the `KeyID` of the embedded public key. -/
theorem keyID_delegates_to_public (P : CryptoPrims) :
    (∀ dk : dsaKey, dsaKeyID P dk = dsaPublicKeyID P dk.publicKey) ∧
    (∀ rk : rsaKey, rsaKeyID P rk = rsaPublicKeyID P rk.publicKey) :=
  ⟨fun _ => rfl, fun _ => rfl⟩

/-- C8: the symmetric `KeyID` computes exactly the digest the spec
describes: first 4 bytes of SHA-1 over the 4-byte big-endian AES key
length, the AES key bytes and the MAC key bytes. -/
theorem aesKeyID_matches_spec (P : CryptoPrims) (ak : aesKey) :
    aesKeyID P ak = aesKeyIDFromSpec P ak.key ak.hmacKey.key :=
  rfl

/-- C7: MAC `Verify` never returns an error; a tag whose length differs
from 20 bytes is rejected as a plain verification failure; and `Verify`
succeeds exactly when the tag equals HMAC-SHA1 of the message. -/
theorem hmacVerify_correct (P : CryptoPrims) (hk : hmacKey) (msg tag : List Nat)
    (h20 : ∀ k m, (P.hmacSha1 k m).length = 20) :
    (tag.length ≠ 20 → hmacVerify P hk msg tag = (false, none)) ∧
    ((hmacVerify P hk msg tag).1 = true ↔ tag = P.hmacSha1 hk.key msg) ∧
    (hmacVerify P hk msg tag).2 = none := by
  refine ⟨?_, ?_, rfl⟩
  · intro hlen
    have hne : P.hmacSha1 hk.key msg ≠ tag := by
      intro he
      exact hlen (he ▸ h20 hk.key msg)
    simp [hmacVerify, constantTimeCompare, hne]
  · show (P.hmacSha1 hk.key msg == tag) = true ↔ tag = P.hmacSha1 hk.key msg
    rw [beq_iff_eq]
    exact eq_comm

/-- Witness for C7: a 1-byte tag is rejected with no error. -/
theorem hmacVerify_correct_witness :
    hmacVerify testPrims { key := [] } [] [1] = (false, none) :=
  (hmacVerify_correct testPrims { key := [] } [] [1] (fun _ _ => rfl)).1
    (by decide)

/-- C10: RSA private-key `Decrypt` slices off the first `kzHeaderLength`
bytes unconditionally, so it faults (`none`, the Go slice panic) on any
shorter input and is defined on every input of at least that length. -/
theorem rsaDecrypt_header_slice
    (oaepDec : rsaPrivateFields → List Nat → Except KzError (List Nat))
    (rk : rsaKey) (msg : List Nat) :
    (msg.length < kzHeaderLength → rsaDecrypt oaepDec rk msg = none) ∧
    (kzHeaderLength ≤ msg.length →
      rsaDecrypt oaepDec rk msg =
        some (oaepDec rk.key (msg.drop kzHeaderLength))) := by
  constructor
  · intro h
    simp [rsaDecrypt, goSliceFrom, Nat.not_le.mpr h]
  · intro h
    simp [rsaDecrypt, goSliceFrom, h]

/-- Witness for C10: a 2-byte input faults; a 6-byte input reaches OAEP
decryption of the 1-byte remainder. -/
theorem rsaDecrypt_header_slice_witness :
    rsaDecrypt (fun _ b => Except.ok b) testRsaKey [0, 0] = none ∧
    rsaDecrypt (fun _ b => Except.ok b) testRsaKey [0, 0, 0, 0, 0, 1] =
      some (Except.ok [1]) := by
  constructor
  · exact (rsaDecrypt_header_slice (fun _ b => Except.ok b) testRsaKey
      [0, 0]).1 (by decide)
  · have h := (rsaDecrypt_header_slice (fun _ b => Except.ok b) testRsaKey
      [0, 0, 0, 0, 0, 1]).2 (by decide)
    simpa using h

/-- C1: on any input passing the length check whose trailing 20-byte tag
does not match the HMAC of everything preceding it, symmetric `Decrypt`
returns `InvalidSignature` and no plaintext — and it does so for every
possible block-decryption primitive, so no CBC decryption influences the
result. -/
theorem aesDecrypt_verify_before_decrypt (P : CryptoPrims) (ak : aesKey)
    (data : List Nat)
    (hlen : ¬ data.length < kzHeaderLength + 16 + 20)
    (hbad : P.hmacSha1 ak.hmacKey.key (data.take (data.length - 20)) ≠
      data.drop (data.length - 20)) :
    ∀ dec, aesDecrypt { P with aesDecBlock := dec } ak data =
      Except.error KzError.InvalidSignature := by
  intro dec
  simp only [aesDecrypt, hmacVerify, constantTimeCompare]
  rw [if_neg hlen, if_pos]
  · rfl
  · exact Or.inl (by simpa using hbad)

/-- Witness for C1: a 41-byte input of ones whose tag (twenty ones) is
not the HMAC value (twenty zeros) is rejected with `InvalidSignature`
under the identity block cipher. -/
theorem aesDecrypt_verify_before_decrypt_witness :
    aesDecrypt { testPrims with aesDecBlock := fun _ b => b } testAesKey
      (List.replicate 41 1) = Except.error KzError.InvalidSignature :=
  aesDecrypt_verify_before_decrypt testPrims testAesKey (List.replicate 41 1)
    (by decide) (by decide) (fun _ b => b)

/-- C2 (divergence witness): on a ciphertext whose MAC tag is valid but
whose decrypted block `0^15 ∥ 03` carries malformed PKCS#5 padding,
`Decrypt` returns success with 3 bytes silently stripped instead of an
error. -/
theorem aesDecrypt_malformed_pad_silent :
    aesDecrypt testPrims testAesKey malformedPadInput =
      Except.ok (List.replicate 13 0) := rfl

/-- C5: for each of the six loaders, if any version in the list fails
its per-version validation (size gate, base64 decoding, or the record
fetch itself), the whole load returns an error; the `Except` result
carries no map in the error case, exactly as the Go loaders return
`(nil, err)`. -/
theorem newKeys_fail_fast (E : LoadEnv) (versions : List Int) :
    (∀ g, (∃ v ∈ versions, ∃ e, parseAesVersion E g v = .error e) →
      ∃ e, newAesKeys E g versions = .error e) ∧
    (∀ g, (∃ v ∈ versions, ∃ e, parseHmacVersion E g v = .error e) →
      ∃ e, newHmacKeys E g versions = .error e) ∧
    (∀ g, (∃ v ∈ versions, ∃ e, parseDsaPublicVersion E g v = .error e) →
      ∃ e, newDsaPublicKeys E g versions = .error e) ∧
    (∀ g, (∃ v ∈ versions, ∃ e, parseDsaVersion E g v = .error e) →
      ∃ e, newDsaKeys E g versions = .error e) ∧
    (∀ g, (∃ v ∈ versions, ∃ e, parseRsaPublicVersion E g v = .error e) →
      ∃ e, newRsaPublicKeys E g versions = .error e) ∧
    (∀ g, (∃ v ∈ versions, ∃ e, parseRsaVersion E g v = .error e) →
      ∃ e, newRsaKeys E g versions = .error e) :=
  ⟨fun _ h => loadKeys_error_of_mem _ versions h,
   fun _ h => loadKeys_error_of_mem _ versions h,
   fun _ h => loadKeys_error_of_mem _ versions h,
   fun _ h => loadKeys_error_of_mem _ versions h,
   fun _ h => loadKeys_error_of_mem _ versions h,
   fun _ h => loadKeys_error_of_mem _ versions h⟩

/-- Witness for C5: under an environment rejecting every declared size,
each loader aborts on a one-version list with an error. -/
theorem newKeys_fail_fast_witness :
    (∃ e, newAesKeys rejectAllEnv (fun _ => .ok testAesJSON) [1] = .error e) ∧
    (∃ e, newHmacKeys rejectAllEnv (fun _ => .ok testHmacJSON) [1] = .error e) ∧
    (∃ e, newDsaPublicKeys rejectAllEnv (fun _ => .ok testDsaPublicJSON) [1] =
      .error e) ∧
    (∃ e, newDsaKeys rejectAllEnv (fun _ => .ok testDsaJSON) [1] = .error e) ∧
    (∃ e, newRsaPublicKeys rejectAllEnv (fun _ => .ok testRsaPublicJSON) [1] =
      .error e) ∧
    (∃ e, newRsaKeys rejectAllEnv (fun _ => .ok testRsaJSON) [1] = .error e) := by
  have T := newKeys_fail_fast rejectAllEnv [1]
  exact ⟨T.1 _ ⟨1, by decide, .InvalidKeySize, rfl⟩,
         T.2.1 _ ⟨1, by decide, .InvalidKeySize, rfl⟩,
         T.2.2.1 _ ⟨1, by decide, .InvalidKeySize, rfl⟩,
         T.2.2.2.1 _ ⟨1, by decide, .InvalidKeySize, rfl⟩,
         T.2.2.2.2.1 _ ⟨1, by decide, .InvalidKeySize, rfl⟩,
         T.2.2.2.2.2 _ ⟨1, by decide, .InvalidKeySize, rfl⟩⟩

/-- Auxiliary: the length of a byte-wise XOR. -/
theorem xorBytes_length (a b : List Nat) :
    (xorBytes a b).length = min a.length b.length := by
  simp [xorBytes]

/-- Auxiliary: XORing twice with the same equal-length mask is the
identity (the CBC chaining cancellation). -/
theorem xorBytes_cancel : ∀ (a b : List Nat), a.length = b.length →
    xorBytes (xorBytes a b) b = a := by
  intro a
  induction a with
  | nil => intro b _; rfl
  | cons x xs ih =>
    intro b h
    cases b with
    | nil => simp at h
    | cons y ys =>
      simp only [xorBytes, List.zipWith_cons_cons]
      rw [Nat.xor_cancel_right]
      have := ih ys (by simpa using h)
      simp only [xorBytes] at this
      rw [this]

/-- Auxiliary: `toBlocks16Aux` does not depend on the fuel once the fuel
covers the length of the input. -/
theorem toBlocks16Aux_congr : ∀ (f1 f2 : Nat) (b : List Nat),
    b.length ≤ f1 → b.length ≤ f2 → toBlocks16Aux f1 b = toBlocks16Aux f2 b := by
  intro f1
  induction f1 with
  | zero =>
    intro f2 b h1 _
    have hb : b = [] := List.eq_nil_of_length_eq_zero (Nat.le_zero.mp h1)
    subst hb
    cases f2 <;> rfl
  | succ f ih =>
    intro f2 b h1 h2
    cases b with
    | nil => cases f2 <;> rfl
    | cons x xs =>
      cases f2 with
      | zero => simp at h2
      | succ f2' =>
        simp only [toBlocks16Aux]
        congr 1
        apply ih
        · simp only [List.length_drop, List.length_cons]
          simp only [List.length_cons] at h1
          omega
        · simp only [List.length_drop, List.length_cons]
          simp only [List.length_cons] at h2
          omega

/-- Auxiliary: unfolding equation of `toBlocks16` on nonempty input. -/
theorem toBlocks16_cons_eq (b : List Nat) (h : b ≠ []) :
    toBlocks16 b = b.take 16 :: toBlocks16 (b.drop 16) := by
  cases b with
  | nil => exact absurd rfl h
  | cons x xs =>
    show toBlocks16Aux (xs.length + 1) (x :: xs) = _
    simp only [toBlocks16Aux]
    congr 1
    apply toBlocks16Aux_congr
    · simp only [List.length_drop, List.length_cons]; omega
    · exact Nat.le_refl _

/-- Auxiliary: flattening the 16-byte blocks of a byte string restores
it. -/
theorem toBlocks16_flatten_aux : ∀ (n : Nat) (b : List Nat), b.length ≤ n →
    (toBlocks16 b).flatten = b := by
  intro n
  induction n with
  | zero =>
    intro b h
    have hb : b = [] := List.eq_nil_of_length_eq_zero (Nat.le_zero.mp h)
    subst hb; rfl
  | succ n ih =>
    intro b h
    by_cases hb : b = []
    · subst hb; rfl
    · have hpos : 0 < b.length := List.length_pos.mpr hb
      rw [toBlocks16_cons_eq b hb, List.flatten_cons,
        ih (b.drop 16) (by simp only [List.length_drop]; omega)]
      exact List.take_append_drop 16 b

/-- Auxiliary: flattening the 16-byte blocks restores the byte string. -/
theorem toBlocks16_flatten (b : List Nat) : (toBlocks16 b).flatten = b :=
  toBlocks16_flatten_aux b.length b (Nat.le_refl _)

/-- Auxiliary: every block of a byte string whose length is a positive
multiple of 16 has length exactly 16. -/
theorem toBlocks16_mem_length : ∀ (n : Nat) (b : List Nat), b.length ≤ n →
    b.length % 16 = 0 → ∀ c ∈ toBlocks16 b, c.length = 16 := by
  intro n
  induction n with
  | zero =>
    intro b h _ c hc
    have hb : b = [] := List.eq_nil_of_length_eq_zero (Nat.le_zero.mp h)
    subst hb
    simp [toBlocks16, toBlocks16Aux] at hc
  | succ n ih =>
    intro b h hmod c hc
    by_cases hb : b = []
    · subst hb; simp [toBlocks16, toBlocks16Aux] at hc
    · have hpos : 0 < b.length := List.length_pos.mpr hb
      have h16 : 16 ≤ b.length := by omega
      rw [toBlocks16_cons_eq b hb] at hc
      rcases List.mem_cons.mp hc with rfl | hc'
      · simp only [List.length_take]; omega
      · exact ih (b.drop 16) (by simp only [List.length_drop]; omega)
          (by simp only [List.length_drop]; omega) c hc'

/-- Auxiliary: chunking the concatenation of 16-byte blocks recovers
exactly those blocks. -/
theorem toBlocks16_flatten_blocks : ∀ (bs : List (List Nat)),
    (∀ c ∈ bs, c.length = 16) → toBlocks16 bs.flatten = bs := by
  intro bs
  induction bs with
  | nil => intro _; rfl
  | cons c cs ih =>
    intro h
    have hc : c.length = 16 := h c (List.mem_cons_self _ _)
    have hne : c ++ cs.flatten ≠ [] := by
      intro he
      have := congrArg List.length he
      simp [hc] at this
    rw [List.flatten_cons, toBlocks16_cons_eq _ hne, List.take_left' hc,
      List.drop_left' hc, ih (fun d hd => h d (List.mem_cons_of_mem _ hd))]

/-- Auxiliary: CBC encryption produces one ciphertext block per
plaintext block. -/
theorem cbcEnc_length (enc : List Nat → List Nat) :
    ∀ (ps : List (List Nat)) (prev : List Nat),
    (cbcEnc enc prev ps).length = ps.length := by
  intro ps
  induction ps with
  | nil => intro prev; rfl
  | cons p ps ih => intro prev; simp only [cbcEnc, List.length_cons, ih]

/-- Auxiliary: under a length-preserving block cipher, every CBC
ciphertext block of 16-byte plaintext blocks has length 16. -/
theorem cbcEnc_mem_length (enc : List Nat → List Nat)
    (hencl : ∀ b : List Nat, b.length = 16 → (enc b).length = 16) :
    ∀ (ps : List (List Nat)) (prev : List Nat), prev.length = 16 →
    (∀ p ∈ ps, p.length = 16) → ∀ c ∈ cbcEnc enc prev ps, c.length = 16 := by
  intro ps
  induction ps with
  | nil => intro prev _ _ c hc; simp [cbcEnc] at hc
  | cons p ps ih =>
    intro prev hprev hps c hc
    have hp : p.length = 16 := hps p (List.mem_cons_self _ _)
    have hx : (xorBytes p prev).length = 16 := by
      rw [xorBytes_length, hp, hprev]; omega
    have henc : (enc (xorBytes p prev)).length = 16 := hencl _ hx
    simp only [cbcEnc] at hc
    rcases List.mem_cons.mp hc with rfl | hc'
    · exact henc
    · exact ih (enc (xorBytes p prev)) henc
        (fun q hq => hps q (List.mem_cons_of_mem _ hq)) c hc'

/-- Auxiliary: the flattening of blocks of length 16 has length
`16 * count`. -/
theorem flatten_length_of_16 : ∀ (bs : List (List Nat)),
    (∀ c ∈ bs, c.length = 16) → bs.flatten.length = 16 * bs.length := by
  intro bs
  induction bs with
  | nil => intro _; rfl
  | cons c cs ih =>
    intro h
    have hc : c.length = 16 := h c (List.mem_cons_self _ _)
    rw [List.flatten_cons, List.length_append, hc,
      ih (fun d hd => h d (List.mem_cons_of_mem _ hd)), List.length_cons]
    omega

/-- Auxiliary: CBC decryption inverts CBC encryption when the block
cipher is a length-preserving permutation on 16-byte blocks. -/
theorem cbcDec_cbcEnc (enc dec : List Nat → List Nat)
    (hencl : ∀ b : List Nat, b.length = 16 → (enc b).length = 16)
    (hdec : ∀ b : List Nat, b.length = 16 → dec (enc b) = b) :
    ∀ (ps : List (List Nat)) (prev : List Nat), prev.length = 16 →
    (∀ p ∈ ps, p.length = 16) → cbcDec dec prev (cbcEnc enc prev ps) = ps := by
  intro ps
  induction ps with
  | nil => intro prev _ _; rfl
  | cons p ps ih =>
    intro prev hprev hps
    have hp : p.length = 16 := hps p (List.mem_cons_self _ _)
    have hx : (xorBytes p prev).length = 16 := by
      rw [xorBytes_length, hp, hprev]; omega
    simp only [cbcEnc, cbcDec]
    rw [hdec _ hx, xorBytes_cancel p prev (by rw [hp, hprev]),
      ih (enc (xorBytes p prev)) (hencl _ hx)
        (fun q hq => hps q (List.mem_cons_of_mem _ hq))]

/-- Auxiliary: length of a PKCS#5-padded byte string. -/
theorem pkcs5pad_length (p : List Nat) :
    (pkcs5pad p 16).length = p.length + (16 - p.length % 16) := by
  simp [pkcs5pad]

/-- Auxiliary: PKCS#5 padding always produces a multiple of the block
size. -/
theorem pkcs5pad_mod (p : List Nat) : (pkcs5pad p 16).length % 16 = 0 := by
  rw [pkcs5pad_length]
  omega

/-- Auxiliary: removing the padding just added restores the plaintext:
valid padding ends in the pad count, which is between 1 and 16. -/
theorem pkcs5unpad_pkcs5pad (p : List Nat) : pkcs5unpad (pkcs5pad p 16) = p := by
  have hr : p.length % 16 < 16 := Nat.mod_lt _ (by omega)
  simp only [pkcs5pad, pkcs5unpad]
  obtain ⟨m, hm⟩ : ∃ m, 16 - p.length % 16 = m + 1 :=
    ⟨16 - p.length % 16 - 1, by omega⟩
  rw [hm, List.replicate_succ', ← List.append_assoc, List.getLastD_concat]
  have h2 : ((p ++ List.replicate m (m + 1)) ++ [m + 1]).length - (m + 1) =
      p.length := by
    simp only [List.length_append, List.length_replicate, List.length_cons,
      List.length_nil]
    omega
  rw [h2, List.append_assoc]
  exact List.take_left p _

/-- Auxiliary: the envelope header has the fixed header length whenever
SHA-1 produces 20-byte digests. -/
theorem makeHeader_length (P : CryptoPrims) (ak : aesKey)
    (hsha : ∀ m, (P.sha1 m).length = 20) :
    (makeHeader (aesKeyID P ak)).length = kzHeaderLength := by
  simp [makeHeader, aesKeyID, kzHeaderLength, hsha]

/-- Auxiliary: on a key of valid length, `aesKey.Encrypt` returns exactly
`header ++ IV ++ ciphertext` followed by the HMAC tag over that
message. -/
theorem aesEncrypt_eq (P : CryptoPrims) (ak : aesKey) (iv p : List Nat)
    (hkey : validAesKeyLength ak.key.length = true) :
    aesEncrypt P ak iv p =
      .ok ((makeHeader (aesKeyID P ak) ++ iv ++
        (cbcEnc (P.aesEncBlock ak.key) iv (toBlocks16 (pkcs5pad p 16))).flatten) ++
        P.hmacSha1 ak.hmacKey.key (makeHeader (aesKeyID P ak) ++ iv ++
        (cbcEnc (P.aesEncBlock ak.key) iv (toBlocks16 (pkcs5pad p 16))).flatten)) := by
  simp [aesEncrypt, hkey, hmacSign]

/-- Auxiliary: `aesKey.Decrypt` on an envelope laid out as
`header ++ IV ++ ciphertext ++ tag` with a matching tag reaches the
CBC-decrypt-then-unpad branch and returns its result. -/
theorem aesDecrypt_parts (P : CryptoPrims) (ak : aesKey) (hdr iv ct sig : List Nat)
    (hhdr : hdr.length = kzHeaderLength) (hiv : iv.length = 16)
    (hsig : sig.length = 20)
    (hver : P.hmacSha1 ak.hmacKey.key (hdr ++ iv ++ ct) = sig)
    (hkey : validAesKeyLength ak.key.length = true) :
    aesDecrypt P ak ((hdr ++ iv ++ ct) ++ sig) =
      .ok (pkcs5unpad ((cbcDec (P.aesDecBlock ak.key) iv (toBlocks16 ct)).flatten)) := by
  have hhdr5 : hdr.length = 5 := hhdr
  have hlen : ((hdr ++ iv ++ ct) ++ sig).length = 41 + ct.length := by
    simp only [List.length_append, hhdr5, hiv, hsig]
    try omega
  have hmsglen : (hdr ++ iv ++ ct).length = 21 + ct.length := by
    simp only [List.length_append, hhdr5, hiv]
    try omega
  have hnotshort : ¬ ((hdr ++ iv ++ ct) ++ sig).length < kzHeaderLength + 16 + 20 := by
    rw [hlen]
    simp only [kzHeaderLength]
    omega
  have htake : ((hdr ++ iv ++ ct) ++ sig).take
      (((hdr ++ iv ++ ct) ++ sig).length - 20) = hdr ++ iv ++ ct := by
    apply List.take_left'
    rw [hmsglen, hlen]
    omega
  have hdrop : ((hdr ++ iv ++ ct) ++ sig).drop
      (((hdr ++ iv ++ ct) ++ sig).length - 20) = sig := by
    apply List.drop_left'
    rw [hmsglen, hlen]
    omega
  have hivex : (((hdr ++ iv ++ ct) ++ sig).drop kzHeaderLength).take 16 = iv := by
    have he : (hdr ++ iv ++ ct) ++ sig = hdr ++ (iv ++ (ct ++ sig)) := by
      simp [List.append_assoc]
    rw [he, List.drop_left' hhdr, List.take_left' hiv]
  have harith : ((hdr ++ iv ++ ct) ++ sig).length - 20 - (kzHeaderLength + 16) =
      ct.length := by
    rw [hlen]
    simp only [kzHeaderLength]
    omega
  have h21 : (hdr ++ iv).length = kzHeaderLength + 16 := by
    simp only [List.length_append, hhdr, hiv]
  have hctex : (((hdr ++ iv ++ ct) ++ sig).drop (kzHeaderLength + 16)).take
      (((hdr ++ iv ++ ct) ++ sig).length - 20 - (kzHeaderLength + 16)) = ct := by
    rw [harith]
    have he : (hdr ++ iv ++ ct) ++ sig = (hdr ++ iv) ++ (ct ++ sig) := by
      simp [List.append_assoc]
    rw [he, List.drop_left' h21]
    exact List.take_left ct sig
  have hv : hmacVerify P ak.hmacKey (hdr ++ iv ++ ct) sig = (true, none) := by
    unfold hmacVerify constantTimeCompare
    rw [hver]
    simp
  simp only [aesDecrypt]
  rw [if_neg hnotshort, htake, hdrop, hv]
  rw [if_neg (by simp)]
  rw [if_neg (by simp [hkey])]
  rw [hivex, hctex]

/-- C9: symmetric `Encrypt` output length is exactly
`kzHeaderLength + 16 (IV) + len(pkcs5pad(p,16)) + 20 (tag)`; for any
11-byte plaintext such as "hello world" the padded part is one block, so
the total is `kzHeaderLength + 16 + 16 + 20`. -/
theorem aesEncrypt_output_length (P : CryptoPrims) (ak : aesKey) (iv p : List Nat)
    (hkey : validAesKeyLength ak.key.length = true) (hiv : iv.length = 16)
    (hsha : ∀ m, (P.sha1 m).length = 20)
    (hmac20 : ∀ k m, (P.hmacSha1 k m).length = 20)
    (hencl : ∀ b : List Nat, b.length = 16 → (P.aesEncBlock ak.key b).length = 16) :
    ∃ c, aesEncrypt P ak iv p = .ok c ∧
      c.length = kzHeaderLength + 16 + (pkcs5pad p 16).length + 20 ∧
      (p.length = 11 → c.length = kzHeaderLength + 16 + 16 + 20) := by
  have hblocks : ∀ c ∈ toBlocks16 (pkcs5pad p 16), c.length = 16 :=
    toBlocks16_mem_length _ _ (Nat.le_refl _) (pkcs5pad_mod p)
  have hcb : ∀ c ∈ cbcEnc (P.aesEncBlock ak.key) iv (toBlocks16 (pkcs5pad p 16)),
      c.length = 16 :=
    cbcEnc_mem_length _ hencl _ iv hiv hblocks
  have hctlen : (cbcEnc (P.aesEncBlock ak.key) iv
      (toBlocks16 (pkcs5pad p 16))).flatten.length = (pkcs5pad p 16).length := by
    rw [flatten_length_of_16 _ hcb, cbcEnc_length]
    have h2 : (toBlocks16 (pkcs5pad p 16)).flatten.length =
        16 * (toBlocks16 (pkcs5pad p 16)).length :=
      flatten_length_of_16 _ hblocks
    rw [toBlocks16_flatten] at h2
    omega
  have hhd : (makeHeader (aesKeyID P ak)).length = kzHeaderLength :=
    makeHeader_length P ak hsha
  refine ⟨_, aesEncrypt_eq P ak iv p hkey, ?_, ?_⟩
  · simp only [List.length_append, hhd, hiv, hctlen, hmac20]
    try omega
  · intro h11
    simp only [List.length_append, hhd, hiv, hctlen, hmac20, pkcs5pad_length, h11]
    try omega

/-- Witness for C9 at an 11-byte plaintext under the identity cipher and
constant digests: the output is 5 + 16 + 16 + 20 bytes. -/
theorem aesEncrypt_output_length_witness :
    ∃ c, aesEncrypt testPrims testAesKey (List.replicate 16 0)
        (List.replicate 11 7) = .ok c ∧
      c.length = kzHeaderLength + 16 + (pkcs5pad (List.replicate 11 7) 16).length + 20 ∧
      ((List.replicate 11 7).length = 11 → c.length = kzHeaderLength + 16 + 16 + 20) :=
  aesEncrypt_output_length testPrims testAesKey (List.replicate 16 0)
    (List.replicate 11 7) rfl rfl (fun _ => rfl) (fun _ _ => rfl) (fun _ h => h)

/-- Auxiliary: `Except.bind` on a success just applies the
continuation. -/
theorem except_ok_bind {ε α β : Type} (x : α) (f : α → Except ε β) :
    (Except.ok (ε := ε) x).bind f = f x := rfl

/-- C3: for every plaintext, every AES key of acceptable length with its
bundled MAC key, and every 16-byte IV drawn during `Encrypt`,
`Decrypt (Encrypt p) = p`, given that the underlying primitives satisfy
the block-cipher permutation and digest-length contracts. -/
theorem aes_round_trip (P : CryptoPrims) (ak : aesKey) (iv p : List Nat)
    (hkey : validAesKeyLength ak.key.length = true) (hiv : iv.length = 16)
    (hsha : ∀ m, (P.sha1 m).length = 20)
    (hmac20 : ∀ k m, (P.hmacSha1 k m).length = 20)
    (hencl : ∀ b : List Nat, b.length = 16 → (P.aesEncBlock ak.key b).length = 16)
    (hdec : ∀ b : List Nat, b.length = 16 →
      P.aesDecBlock ak.key (P.aesEncBlock ak.key b) = b) :
    (aesEncrypt P ak iv p).bind (fun c => aesDecrypt P ak c) = Except.ok p := by
  have hblocks : ∀ c ∈ toBlocks16 (pkcs5pad p 16), c.length = 16 :=
    toBlocks16_mem_length _ _ (Nat.le_refl _) (pkcs5pad_mod p)
  have hcb : ∀ c ∈ cbcEnc (P.aesEncBlock ak.key) iv (toBlocks16 (pkcs5pad p 16)),
      c.length = 16 :=
    cbcEnc_mem_length _ hencl _ iv hiv hblocks
  have hhd : (makeHeader (aesKeyID P ak)).length = kzHeaderLength :=
    makeHeader_length P ak hsha
  rw [aesEncrypt_eq P ak iv p hkey, except_ok_bind]
  rw [aesDecrypt_parts P ak (makeHeader (aesKeyID P ak)) iv
    ((cbcEnc (P.aesEncBlock ak.key) iv (toBlocks16 (pkcs5pad p 16))).flatten)
    (P.hmacSha1 ak.hmacKey.key (makeHeader (aesKeyID P ak) ++ iv ++
      (cbcEnc (P.aesEncBlock ak.key) iv (toBlocks16 (pkcs5pad p 16))).flatten))
    hhd hiv (hmac20 _ _) rfl hkey]
  rw [toBlocks16_flatten_blocks _ hcb]
  rw [cbcDec_cbcEnc (P.aesEncBlock ak.key) (P.aesDecBlock ak.key) hencl hdec _
    iv hiv hblocks]
  rw [toBlocks16_flatten, pkcs5unpad_pkcs5pad]

/-- Witness for C3: the 2-byte plaintext `[104, 105]` survives the
encrypt-then-decrypt round trip under the identity cipher and constant
digests. -/
theorem aes_round_trip_witness :
    (aesEncrypt testPrims testAesKey (List.replicate 16 0) [104, 105]).bind
      (fun c => aesDecrypt testPrims testAesKey c) = Except.ok [104, 105] :=
  aes_round_trip testPrims testAesKey (List.replicate 16 0) [104, 105]
    rfl rfl (fun _ => rfl) (fun _ _ => rfl) (fun _ h => h) (fun _ _ => rfl)
